import Mathlib

/-!
# thread_timer: the timer registry, its dispatch loop and its lifecycle

A shallow embedding of `timer_handler.c`.  Every C function of the file is a
Lean function of the same name over explicit state:

* the heap object `timer_handler_t` (a NULL pointer is `none`);
* the kernel state the handler talks to (`os_state`): the open descriptors,
  the interest list of the handler's epoll instance, and the worker thread
  named by `handler->thread_id`.

The outcome of every system call that the program cannot predict (does
`timerfd_create` succeed, which descriptor does it hand out, does `realloc`
succeed, what does `read` return ...) is an argument of the function that makes
the call.  A call that never returns (it waits for ever in
`pthread_mutex_lock` or in `pthread_join`) is `none`.

`timer_count` and `timer_capacity` are C `int`s.  They count open descriptors,
so they stay far below `2^31`; they are natural numbers here.
-/

namespace TimerHandler

/-! ## Data model (timer_handler.h) -/

/-- One slot of the timer array.  A callback is a code address (0 is NULL) and
`user_data` an address the library never dereferences. -/
structure timer_info_t where
  tfd : Int
  callback : Nat
  user_data : Nat
deriving DecidableEq

instance : Inhabited timer_info_t := ⟨⟨0, 0, 0⟩⟩

/-- The handler object.  `timers` is the whole allocated block (slots at and
after `timer_count` hold stale or uninitialised data); `mutex` is `true` while
the mutex is held.  `thread_id` lives in `os_state.worker`. -/
structure timer_handler_t where
  epoll_fd : Int
  timers : List timer_info_t
  timer_count : Nat
  timer_capacity : Nat
  running : Int
  mutex : Bool
deriving DecidableEq

/-- Where the thread started by `timer_handler_start` is: there is none, it
exists but has not yet run the first critical section of `timer_handler_run`
(which sets `running = 1`), or it is inside the `while` loop. -/
inductive worker_t where
  | absent
  | created
  | looping
deriving DecidableEq

/-- The part of the kernel the handler uses. -/
structure os_state where
  open_fds : List Int
  epoll_set : List Int
  worker : worker_t
deriving DecidableEq

/-- The live entries `timers[0 .. timer_count-1]`. -/
def entries (h : timer_handler_t) : List timer_info_t :=
  h.timers.take h.timer_count

/-- The handles stored in the live entries. -/
def handles (h : timer_handler_t) : List Int :=
  (entries h).map timer_info_t.tfd

/-- A handler object as the C code expects it: the block has `timer_capacity`
slots, at least one, and the live entries fit in it. -/
def wf (h : timer_handler_t) : Prop :=
  h.timers.length = h.timer_capacity ∧ 0 < h.timer_capacity ∧ h.timer_count ≤ h.timer_capacity

instance (h : timer_handler_t) : Decidable (wf h) := by
  unfold wf; infer_instance

/-! ## The kernel calls -/

def INITIAL_CAPACITY : Nat := 8

def EINTR : Int := 4

def EINVAL : Int := 22

/-- `pthread_mutex_lock` on a free mutex. -/
def lock (h : timer_handler_t) : timer_handler_t := { h with mutex := true }

/-- `pthread_mutex_unlock`. -/
def unlock (h : timer_handler_t) : timer_handler_t := { h with mutex := false }

/-- `close(fd)`: the descriptor is no longer open, and the kernel drops a
closed descriptor from every epoll interest list. -/
def os_close (os : os_state) (fd : Int) : os_state :=
  { os with open_fds := os.open_fds.filter (fun x => x ≠ fd),
            epoll_set := os.epoll_set.filter (fun x => x ≠ fd) }

/-- `epoll_ctl(epoll_fd, EPOLL_CTL_ADD, fd, &ev)`.  It fails when the kernel
refuses (`ok = false`: ENOMEM, ENOSPC, ...), when `fd` is not open (EBADF) and
when `fd` is already in the interest list (EEXIST). -/
def epoll_ctl_add (os : os_state) (fd : Int) (ok : Bool) : Int × os_state :=
  if ok = true ∧ fd ∈ os.open_fds ∧ fd ∉ os.epoll_set then
    (0, { os with epoll_set := fd :: os.epoll_set })
  else (-1, os)

/-- `epoll_ctl(epoll_fd, EPOLL_CTL_DEL, fd, NULL)`.  It fails when the kernel
refuses (`ok = false`) and when `fd` is not in the interest list (ENOENT). -/
def epoll_ctl_del (os : os_state) (fd : Int) (ok : Bool) : Int × os_state :=
  if ok = true ∧ fd ∈ os.epoll_set then
    (0, { os with epoll_set := os.epoll_set.filter (fun x => x ≠ fd) })
  else (-1, os)

/-- What the kernel answers during one `timer_handler_add_timer`.
`timerfd_create`: the new descriptor, `none` for -1.  `fcntl_getfl`: the flag
word, `none` for -1.  `realloc`: `none` for NULL, otherwise the content of the
fresh slots.  The other fields say whether the call succeeds. -/
structure add_env where
  timerfd_create : Option Nat
  fcntl_getfl : Option Nat
  fcntl_setfl_ok : Bool
  timerfd_settime_ok : Bool
  realloc : Option timer_info_t
  epoll_ctl_ok : Bool
deriving DecidableEq

/-- The static helper `set_nonblock`. -/
def set_nonblock (env : add_env) : Int :=
  match env.fcntl_getfl with
  | none => -1
  | some _ => if env.fcntl_setfl_ok = false then -1 else 0

/-- What the kernel answers during `timer_handler_create`. -/
structure create_env where
  malloc_handler_ok : Bool
  epoll_create1 : Option Nat
  malloc_timers : Option timer_info_t
  mutex_init_ok : Bool
deriving DecidableEq

/-! ## timer_handler.c -/

/-- `timer_handler_create`.  The result is the new handler (NULL is `none`) and
the kernel state, in which the new epoll instance has an empty interest list. -/
def timer_handler_create (env : create_env) (os : os_state) :
    Option timer_handler_t × os_state :=
  if env.malloc_handler_ok = false then (none, os) else
  match env.epoll_create1 with
  | none => (none, os)
  | some e =>
    let epoll_fd : Int := e
    let os1 : os_state := { os with open_fds := epoll_fd :: os.open_fds, epoll_set := [] }
    match env.malloc_timers with
    | none => (none, os_close os1 epoll_fd)
    | some junk =>
      if env.mutex_init_ok = false then (none, os_close os1 epoll_fd) else
      (some { epoll_fd := epoll_fd,
              timers := List.replicate INITIAL_CAPACITY junk,
              timer_count := 0,
              timer_capacity := INITIAL_CAPACITY,
              running := 0,
              mutex := false }, os1)

/-- The block `if (handler->timer_count >= handler->timer_capacity) { ... }` of
`timer_handler_add_timer`; `none` when `realloc` returns NULL. -/
def grow (h : timer_handler_t) (env : add_env) : Option timer_handler_t :=
  if h.timer_count ≥ h.timer_capacity then
    let new_capacity := h.timer_capacity * 2
    match env.realloc with
    | none => none
    | some junk =>
      some { h with timers := (h.timers ++ List.replicate new_capacity junk).take new_capacity,
                    timer_capacity := new_capacity }
  else some h

/-- `timer_handler_add_timer`.  The clock and the four time values only reach
`timerfd_create` and `timerfd_settime`, whose outcomes are in `env`. -/
def timer_handler_add_timer (handler : Option timer_handler_t) (callback user_data : Nat)
    (env : add_env) (os : os_state) : Option (Int × Option timer_handler_t × os_state) :=
  match handler with
  | none => some (-1, none, os)
  | some h =>
    if callback = 0 then some (-1, some h, os) else
    if h.mutex = true then none else
    let h := lock h
    match env.timerfd_create with
    | none => some (-1, some h, os)
    | some n =>
      let tfd : Int := n
      let os := { os with open_fds := tfd :: os.open_fds }
      if set_nonblock env = -1 then some (-1, some h, os_close os tfd) else
      if env.timerfd_settime_ok = false then some (-1, some h, os_close os tfd) else
      match grow h env with
      | none => some (-1, some h, os_close os tfd)
      | some h =>
        let r := epoll_ctl_add os tfd env.epoll_ctl_ok
        if r.1 = -1 then some (-1, some h, os_close r.2 tfd) else
        let h := { h with timers := h.timers.set h.timer_count ⟨tfd, callback, user_data⟩ }
        let h := { h with timer_count := h.timer_count + 1 }
        some (tfd, some (unlock h), r.2)

/-- The scan `for (i = 0; i < timer_count; i++) if (timers[i].tfd == tfd) ...
break;` started at index `i` with `fuel` iterations left: the first index that
carries `tfd`. -/
def scan (timers : List timer_info_t) (timer_count : Nat) (tfd : Int) : Nat → Nat → Option Nat
  | 0, _ => none
  | fuel + 1, i =>
    if i < timer_count then
      if (timers.getD i default).tfd = tfd then some i
      else scan timers timer_count tfd fuel (i + 1)
    else none

/-- `timer_handler_remove_timer`; `ctl_ok = false` when the kernel refuses the
`EPOLL_CTL_DEL`. -/
def timer_handler_remove_timer (handler : Option timer_handler_t) (tfd : Int)
    (ctl_ok : Bool) (os : os_state) : Option (Int × Option timer_handler_t × os_state) :=
  match handler with
  | none => some (-1, none, os)
  | some h =>
    if h.mutex = true then none else
    let h := lock h
    let r := epoll_ctl_del os tfd ctl_ok
    if r.1 = -1 then some (-1, some (unlock h), r.2) else
    match scan h.timers h.timer_count tfd h.timer_count 0 with
    | some i =>
      let os2 := os_close r.2 tfd
      let h := if i < h.timer_count - 1 then
          { h with timers := h.timers.set i (h.timers.getD (h.timer_count - 1) default) }
        else h
      let h := { h with timer_count := h.timer_count - 1 }
      some (0, some (unlock h), os2)
    | none => some (-1, some (unlock h), r.2)

/-- What `epoll_wait` reports: -1 with an `errno`, or the ready descriptors. -/
inductive wait_result where
  | error (errno : Int)
  | ready (events : List Int)
deriving DecidableEq

/-- `epoll_wait(epoll_fd, events, maxevents, timeout_ms)` when the kernel has
`o` to report: `maxevents ≤ 0` is EINVAL, and at most `maxevents` events are
returned. -/
def epoll_wait (maxevents : Nat) (o : wait_result) : wait_result :=
  match o with
  | .error e => .error e
  | .ready evs => if maxevents = 0 then .error EINVAL else .ready (evs.take maxevents)

/-- What `read(tfd, &expirations, 8)` does: its return value and the content of
`expirations` afterwards. -/
structure read_outcome where
  s : Int
  expirations : Nat
deriving DecidableEq

/-- One callback invocation `callback(tfd, expirations, user_data)`; `event` is
the index of the readiness notification being handled. -/
structure invocation where
  event : Nat
  callback : Nat
  tfd : Int
  expirations : Nat
  user_data : Nat
deriving DecidableEq

/-- The loop `for (i = 0; i < nfds; i++)` of `timer_handler_run_once`, at index
`i` with the events from `i` on still to handle; `reads i` is what the `read`
made for event `i` returns.  The result is the list of callback invocations, in
order.  Callbacks are caller code: they are recorded, not executed. -/
def run_once_loop (h : timer_handler_t) (reads : Nat → read_outcome) :
    List Int → Nat → Option (List invocation)
  | [], _ => some []
  | tfd :: rest, i =>
    if h.mutex = true then none else
    let timer_info : Option timer_info_t :=
      (scan h.timers h.timer_count tfd h.timer_count 0).map (fun j => h.timers.getD j default)
    let fired : List invocation :=
      match timer_info with
      | none => []
      | some ti =>
        if ti.callback ≠ 0 then
          if (reads i).s > 0 then
            [⟨i, ti.callback, tfd, (reads i).expirations, ti.user_data⟩]
          else []
        else []
    match run_once_loop h reads rest (i + 1) with
    | none => none
    | some later => some (fired ++ later)

/-- `timer_handler_run_once`: the return value and the callbacks invoked.  The
handler is left as it was (every lock is followed by its unlock). -/
def timer_handler_run_once (handler : Option timer_handler_t) (o : wait_result)
    (reads : Nat → read_outcome) : Option (Int × List invocation) :=
  match handler with
  | none => some (-1, [])
  | some h =>
    match epoll_wait h.timer_count o with
    | .error _ => some (-1, [])
    | .ready events =>
      let nfds : Int := events.length
      match run_once_loop h reads events 0 with
      | none => none
      | some trace => some (nfds, trace)

/-- `pthread_join(handler->thread_id, NULL)`.  A worker inside the loop of
`timer_handler_run` leaves it when it reads `running == 0`, and the join
returns.  A worker that has not started yet first sets `running = 1` and then
loops: the join waits for ever.  With no live worker the thread id is stale;
the call is taken to return at once (the code ignores its result). -/
def pthread_join (h : timer_handler_t) (os : os_state) : Option os_state :=
  match os.worker with
  | .absent => some os
  | .created => none
  | .looping => if h.running = 0 then some { os with worker := .absent } else none

/-- `timer_handler_start`; `create_ok` says whether `pthread_create` succeeds. -/
def timer_handler_start (handler : Option timer_handler_t) (create_ok : Bool)
    (os : os_state) : Option (Int × Option timer_handler_t × os_state) :=
  match handler with
  | none => some (-1, none, os)
  | some h =>
    if h.mutex = true then none else
    let h := lock h
    if h.running ≠ 0 then some (-1, some (unlock h), os) else
    let h := { h with running := 1 }
    let h := unlock h
    if create_ok = false then
      let h := lock h
      let h := { h with running := 0 }
      some (-1, some (unlock h), os)
    else some (0, some h, { os with worker := .created })

/-- `timer_handler_stop`. -/
def timer_handler_stop (handler : Option timer_handler_t) (os : os_state) :
    Option (Int × Option timer_handler_t × os_state) :=
  match handler with
  | none => some (-1, none, os)
  | some h =>
    if h.mutex = true then none else
    let h := lock h
    if h.running = 0 then some (-1, some (unlock h), os) else
    let h := { h with running := 0 }
    let h := unlock h
    match pthread_join h os with
    | none => none
    | some os1 => some (0, some h, os1)

/-- `timer_handler_is_running`: the value returned.  The handler is left as it
was (the lock is followed by its unlock). -/
def timer_handler_is_running (handler : Option timer_handler_t) : Option Int :=
  match handler with
  | none => some 0
  | some h =>
    if h.mutex = true then none else
    let h := lock h
    let running := h.running
    some running

/-! ## Sequences of registry calls -/

/-- One call of the registry interface, with what the kernel answers during it. -/
inductive api_call where
  | add (callback user_data : Nat) (env : add_env)
  | remove (tfd : Int) (ctl_ok : Bool)
deriving DecidableEq

/-- The state after one call on a live handler.  A call that never returns
leaves the state as it is: the caller is stuck before anything changes. -/
def step (w : timer_handler_t × os_state) (c : api_call) : timer_handler_t × os_state :=
  match c with
  | .add callback user_data env =>
    match timer_handler_add_timer (some w.1) callback user_data env w.2 with
    | some (_, some h, os) => (h, os)
    | _ => w
  | .remove tfd ctl_ok =>
    match timer_handler_remove_timer (some w.1) tfd ctl_ok w.2 with
    | some (_, some h, os) => (h, os)
    | _ => w

/-- The state after a sequence of calls. -/
def run_calls (w : timer_handler_t × os_state) : List api_call → timer_handler_t × os_state
  | [] => w
  | c :: cs => run_calls (step w c) cs

/-- Along the sequence, every descriptor that `timerfd_create` hands out is one
that is not open at that moment. -/
def fresh_descriptors (w : timer_handler_t × os_state) : List api_call → Bool
  | [] => true
  | c :: cs =>
    (match c with
      | .add _ _ env =>
        match env.timerfd_create with
        | none => true
        | some n => decide ((n : Int) ∉ w.2.open_fds)
      | .remove _ _ => true)
    && fresh_descriptors (step w c) cs

/-! ## Vocabulary of the proofs -/

/-- The registry and the epoll interest list hold the same handles; the handler
object is well formed, no handle is stored twice, and only open descriptors are
registered. -/
def registry_inv (h : timer_handler_t) (os : os_state) : Prop :=
  wf h ∧ (handles h).Nodup ∧ (∀ x, x ∈ handles h ↔ x ∈ os.epoll_set)
    ∧ ∀ x, x ∈ os.epoll_set → x ∈ os.open_fds

/-- The handler that `timer_handler_remove_timer` leaves when its scan stops at
index `i` (see `remove_timer_found`). -/
def removed_at (h : timer_handler_t) (i : Nat) : timer_handler_t :=
  { h with
    timers := if i < h.timer_count - 1 then
        h.timers.set i (h.timers.getD (h.timer_count - 1) default) else h.timers,
    timer_count := h.timer_count - 1 }

/-- The handler that a successful `timer_handler_add_timer` leaves, `g` being
the handler after the growth block (see `add_timer_success`). -/
def stored (g : timer_handler_t) (tfd : Int) (callback user_data : Nat) : timer_handler_t :=
  { g with timers := g.timers.set g.timer_count ⟨tfd, callback, user_data⟩,
           timer_count := g.timer_count + 1,
           mutex := false }

/-- The contract of `read` on a timerfd (timerfd_create(2)): a read that
returns data returns the number of expirations, which is at least one; with no
expiration pending a non-blocking read fails with EAGAIN. -/
def timerfd_read_contract (reads : Nat → read_outcome) : Prop :=
  ∀ i, 0 < (reads i).s → 0 < (reads i).expirations

/-! ## Concrete states used to exercise the theorems -/

/-- A process with the three standard descriptors open. -/
def boot_os : os_state := ⟨[0, 1, 2], [], .absent⟩

def create_env_ok : create_env := ⟨true, some 3, some ⟨0, 0, 0⟩, true⟩

/-- The kernel state right after `timer_handler_create` got descriptor 3. -/
def sample_os : os_state := ⟨[3, 0, 1, 2], [], .absent⟩

/-- The handler right after `timer_handler_create`. -/
def sample_handler : timer_handler_t :=
  ⟨3, List.replicate 8 ⟨0, 0, 0⟩, 0, 8, 0, false⟩

/-- Every call succeeds and `timerfd_create` hands out descriptor `n`. -/
def env_ok (n : Nat) : add_env := ⟨some n, some 2, true, true, some ⟨0, 0, 0⟩, true⟩

/-- The call `timerfd_create` fails (EMFILE, or an invalid clock id). -/
def env_no_timerfd : add_env := ⟨none, some 2, true, true, some ⟨0, 0, 0⟩, true⟩

/-- The descriptor `n` is created, then `epoll_ctl` refuses it. -/
def env_no_epoll (n : Nat) : add_env := ⟨some n, some 2, true, true, some ⟨0, 0, 0⟩, false⟩

/-- A handler with the timers 4, 5 and 6. -/
def three_timers : timer_handler_t :=
  ⟨3, [⟨4, 7, 10⟩, ⟨5, 8, 11⟩, ⟨6, 9, 12⟩, ⟨0, 0, 0⟩], 3, 4, 0, false⟩

def three_os : os_state := ⟨[6, 5, 4, 3, 0, 1, 2], [6, 5, 4], .absent⟩

/-- The kernel state `three_os` with one more descriptor, 9, registered with
epoll although no registry entry carries it. -/
def stray_os : os_state := ⟨[9, 6, 5, 4, 3, 0, 1, 2], [9, 6, 5, 4], .absent⟩

/-- A handler whose block is full: the next add has to grow it. -/
def full_handler : timer_handler_t := ⟨3, [⟨4, 7, 10⟩], 1, 1, 0, false⟩

def full_os : os_state := ⟨[4, 3, 0, 1, 2], [4], .absent⟩

/-- Reads for three notifications: the first returns 3 expirations, the others
would block. -/
def sample_reads : Nat → read_outcome :=
  fun i => if i = 0 then ⟨8, 3⟩ else ⟨-1, 0⟩

/-- A running handler whose worker is inside its loop. -/
def running_handler : timer_handler_t :=
  ⟨3, List.replicate 8 ⟨0, 0, 0⟩, 0, 8, 1, false⟩

def running_os : os_state := ⟨[3, 0, 1, 2], [], .looping⟩

/-! # Lemmas -/

/-! ## The scan -/

theorem scan_some_spec (timers : List timer_info_t) (c : Nat) (tfd : Int) :
    ∀ (fuel i k : Nat), scan timers c tfd fuel i = some k →
      i ≤ k ∧ k < c ∧ (timers.getD k default).tfd = tfd ∧
        ∀ j, i ≤ j → j < k → (timers.getD j default).tfd ≠ tfd := by
  intro fuel
  induction fuel with
  | zero => intro i k hk; simp [scan] at hk
  | succ n ih =>
    intro i k hk
    unfold scan at hk
    by_cases hi : i < c
    · rw [if_pos hi] at hk
      by_cases ht : (timers.getD i default).tfd = tfd
      · rw [if_pos ht] at hk
        have hik : i = k := by simpa using hk
        subst hik
        exact ⟨le_refl _, hi, ht, fun j h1 h2 => absurd h1 (by omega)⟩
      · rw [if_neg ht] at hk
        obtain ⟨h1, h2, h3, h4⟩ := ih (i + 1) k hk
        refine ⟨by omega, h2, h3, ?_⟩
        intro j hj1 hj2
        by_cases hji : j = i
        · subst hji; exact ht
        · exact h4 j (by omega) hj2
    · rw [if_neg hi] at hk
      simp at hk

theorem scan_none_spec (timers : List timer_info_t) (c : Nat) (tfd : Int) :
    ∀ (fuel i : Nat), c ≤ i + fuel → scan timers c tfd fuel i = none →
      ∀ j, i ≤ j → j < c → (timers.getD j default).tfd ≠ tfd := by
  intro fuel
  induction fuel with
  | zero => intro i hc _ j h1 h2; omega
  | succ n ih =>
    intro i hc hk j h1 h2
    unfold scan at hk
    by_cases hi : i < c
    · rw [if_pos hi] at hk
      by_cases ht : (timers.getD i default).tfd = tfd
      · rw [if_pos ht] at hk; simp at hk
      · rw [if_neg ht] at hk
        by_cases hji : j = i
        · subst hji; exact ht
        · exact ih (i + 1) (by omega) hk j (by omega) h2
    · omega

/-! ## Live entries -/

theorem entries_length (h : timer_handler_t) (hwf : wf h) :
    (entries h).length = h.timer_count := by
  obtain ⟨hl, _, hc⟩ := hwf
  simp [entries]; omega

theorem entries_get (h : timer_handler_t) (hwf : wf h) (j : Nat)
    (hj : j < h.timer_count) :
    (entries h)[j]? = some (h.timers.getD j default) := by
  obtain ⟨hl, _, hc⟩ := hwf
  have hjl : j < h.timers.length := by omega
  simp only [entries, List.getD_eq_getElem?_getD]
  rw [List.getElem?_take_of_lt hj, List.getElem?_eq_getElem hjl]
  rfl

theorem handles_get (h : timer_handler_t) (hwf : wf h) (j : Nat)
    (hj : j < h.timer_count) :
    (handles h)[j]? = some (h.timers.getD j default).tfd := by
  simp only [handles, List.getElem?_map, entries_get h hwf j hj, Option.map_some']

theorem mem_handles_iff (h : timer_handler_t) (hwf : wf h) (tfd : Int) :
    tfd ∈ handles h ↔ ∃ j, j < h.timer_count ∧ (h.timers.getD j default).tfd = tfd := by
  obtain ⟨hl, _, hc⟩ := hwf
  unfold handles entries
  constructor
  · intro hm
    obtain ⟨e, he, het⟩ := List.mem_map.mp hm
    obtain ⟨j, hj, hje⟩ := List.getElem_of_mem he
    have hjc : j < h.timer_count := by
      have := hj; simp at this; omega
    refine ⟨j, hjc, ?_⟩
    have : h.timers[j]? = some e := by
      rw [← List.getElem?_take_of_lt hjc, List.getElem?_eq_getElem hj, hje]
    simp [this, het]
  · rintro ⟨j, hj, hjt⟩
    have hjl : j < h.timers.length := by omega
    refine List.mem_map.mpr ⟨h.timers[j], ?_, ?_⟩
    · rw [List.mem_take_iff_getElem]
      exact ⟨j, by simp; omega, rfl⟩
    · simpa [List.getElem?_eq_getElem hjl] using hjt

theorem scan_first (h : timer_handler_t) (hwf : wf h) (tfd : Int) (i : Nat)
    (hi : i < h.timer_count) (hat : (handles h)[i]? = some tfd)
    (hbefore : ∀ j, j < i → (handles h)[j]? ≠ some tfd) :
    scan h.timers h.timer_count tfd h.timer_count 0 = some i := by
  cases hs : scan h.timers h.timer_count tfd h.timer_count 0 with
  | none =>
    exfalso
    have := scan_none_spec h.timers h.timer_count tfd h.timer_count 0 (by omega) hs i
      (Nat.zero_le i) hi
    rw [handles_get h hwf i hi] at hat
    exact this (Option.some.inj hat)
  | some k =>
    obtain ⟨_, hkc, hkt, hkfirst⟩ := scan_some_spec h.timers h.timer_count tfd _ 0 k hs
    rcases Nat.lt_trichotomy k i with hlt | heq | hgt
    · exfalso
      apply hbefore k hlt
      rw [handles_get h hwf k hkc, hkt]
    · rw [heq]
    · exfalso
      rw [handles_get h hwf i hi] at hat
      exact hkfirst i (Nat.zero_le i) hgt (Option.some.inj hat)

/-! ## Lists: removing by swapping with the last element -/

theorem swap_remove_perm {α : Type} (l : List α) :
    ∀ (i : Nat) (x : α), l.getLast? = some x → i + 1 < l.length →
      ((l.dropLast).set i x).Perm (l.eraseIdx i) := by
  induction l with
  | nil => intro i x _ hi; simp at hi
  | cons y t ih =>
    intro i x hx hi
    have hne : t ≠ [] := by
      intro h; subst h; simp at hi
    have hlast : t.getLast? = some x := by
      cases t with
      | nil => exact absurd rfl hne
      | cons z u => simpa [List.getLast?_cons_cons] using hx
    rw [List.dropLast_cons_of_ne_nil hne]
    cases i with
    | zero =>
      simp only [List.set_cons_zero, List.eraseIdx_cons_zero]
      have ht : t = t.dropLast ++ [x] := by
        have h1 := List.dropLast_concat_getLast hne
        have h2 : t.getLast hne = x := by
          rw [List.getLast?_eq_getLast t hne] at hlast
          exact Option.some.inj hlast
        rw [h2] at h1; exact h1.symm
      conv_rhs => rw [ht]
      exact (List.perm_append_singleton x t.dropLast).symm
    | succ j =>
      simp only [List.set_cons_succ, List.eraseIdx_cons_succ]
      exact List.Perm.cons y (ih j x hlast (by simpa using hi))

theorem map_eraseIdx {α β : Type} (f : α → β) (l : List α) :
    ∀ (i : Nat), (l.eraseIdx i).map f = (l.map f).eraseIdx i := by
  induction l with
  | nil => intro i; rfl
  | cons y t ih =>
    intro i
    cases i with
    | zero => rfl
    | succ j => simp only [List.eraseIdx_cons_succ, List.map_cons, ih j]

theorem mem_eraseIdx_nodup {α : Type} [DecidableEq α] (l : List α) :
    ∀ (i : Nat) (a x : α), l.Nodup → l[i]? = some a →
      (x ∈ l.eraseIdx i ↔ x ∈ l ∧ x ≠ a) := by
  induction l with
  | nil => intro i a x _ h; simp at h
  | cons y t ih =>
    intro i a x hnd hi
    obtain ⟨hy, ht⟩ := List.nodup_cons.mp hnd
    cases i with
    | zero =>
      simp only [List.getElem?_cons_zero, Option.some.injEq] at hi
      subst hi
      simp only [List.eraseIdx_cons_zero, List.mem_cons]
      constructor
      · intro hx
        exact ⟨Or.inr hx, fun hc => hy (hc ▸ hx)⟩
      · rintro ⟨hx | hx, hne⟩
        · exact absurd hx hne
        · exact hx
    | succ j =>
      simp only [List.getElem?_cons_succ] at hi
      simp only [List.eraseIdx_cons_succ, List.mem_cons, ih j a x ht hi]
      have hay : y ≠ a := fun hc => hy (hc ▸ List.getElem?_mem hi)
      constructor
      · rintro (hx | ⟨hx, hne⟩)
        · exact ⟨Or.inl hx, hx ▸ hay⟩
        · exact ⟨Or.inr hx, hne⟩
      · rintro ⟨hx | hx, hne⟩
        · exact Or.inl hx
        · exact Or.inr ⟨hx, hne⟩

/-! ## What timer_handler_remove_timer computes -/

theorem unlock_lock (h : timer_handler_t) (hm : h.mutex = false) : unlock (lock h) = h := by
  cases h; simp only at hm; subst hm; rfl

theorem remove_timer_found (h : timer_handler_t) (tfd : Int) (ok : Bool) (os : os_state)
    (i : Nat) (hm : h.mutex = false) (hdel : (epoll_ctl_del os tfd ok).1 = 0)
    (hs : scan h.timers h.timer_count tfd h.timer_count 0 = some i) :
    timer_handler_remove_timer (some h) tfd ok os
      = some (0, some (removed_at h i), os_close (epoll_ctl_del os tfd ok).2 tfd) := by
  cases h with
  | mk e ts c cap r m =>
    simp only at hm hs
    subst hm
    simp only [timer_handler_remove_timer, lock, unlock, hdel, hs, removed_at]
    by_cases hi : i < c - 1 <;> simp [hi]

theorem remove_timer_missing (h : timer_handler_t) (tfd : Int) (ok : Bool) (os : os_state)
    (hm : h.mutex = false)
    (hs : scan h.timers h.timer_count tfd h.timer_count 0 = none) :
    timer_handler_remove_timer (some h) tfd ok os
      = some (-1, some h, (epoll_ctl_del os tfd ok).2) := by
  cases h with
  | mk e ts c cap r m =>
    simp only at hm hs
    subst hm
    simp only [timer_handler_remove_timer, lock, unlock, hs]
    by_cases hd : (epoll_ctl_del os tfd ok).1 = -1 <;> simp [hd]

theorem remove_timer_del_fails (h : timer_handler_t) (tfd : Int) (ok : Bool) (os : os_state)
    (hm : h.mutex = false) (hdel : (epoll_ctl_del os tfd ok).1 = -1) :
    timer_handler_remove_timer (some h) tfd ok os
      = some (-1, some h, (epoll_ctl_del os tfd ok).2) := by
  simp only [timer_handler_remove_timer, hm, Bool.false_eq_true, if_false, hdel, if_true]
  rw [unlock_lock h hm]

theorem entries_removed_at (h : timer_handler_t) (hwf : wf h) (i : Nat) :
    entries (removed_at h i)
      = if i < h.timer_count - 1 then
          ((entries h).dropLast).set i ((entries h).getD (h.timer_count - 1) default)
        else (entries h).dropLast := by
  obtain ⟨hl, _, hc⟩ := hwf
  have hlen : (entries h).length = h.timer_count := by
    simp [entries]; omega
  have hdl : (entries h).dropLast = h.timers.take (h.timer_count - 1) := by
    rw [List.dropLast_eq_take, hlen]
    simp only [entries, List.take_take]
    congr 1; omega
  rw [hdl]
  by_cases hlt : i < h.timer_count - 1
  · simp only [removed_at, entries, hlt, if_true]
    rw [List.set_take]
    congr 1
    simp only [List.getD_eq_getElem?_getD]
    rw [List.getElem?_take_of_lt (by omega)]
  · simp only [removed_at, entries, hlt, if_false]

theorem entries_removed_at_perm (h : timer_handler_t) (hwf : wf h) (i : Nat)
    (hi : i < h.timer_count) :
    (entries (removed_at h i)).Perm ((entries h).eraseIdx i) := by
  have hlen := entries_length h hwf
  have hlast : (entries h).getLast? = some ((entries h).getD (h.timer_count - 1) default) := by
    rw [List.getLast?_eq_getElem?, hlen, List.getD_eq_getElem?_getD,
      entries_get h hwf (h.timer_count - 1) (by omega)]
    rfl
  rw [entries_removed_at h hwf i]
  by_cases hlt : i < h.timer_count - 1
  · rw [if_pos hlt]
    exact swap_remove_perm (entries h) i _ hlast (by omega)
  · rw [if_neg hlt]
    have hi1 : i + 1 = (entries h).length := by omega
    rw [List.dropLast_eq_eraseIdx hi1]

theorem wf_removed_at (h : timer_handler_t) (hwf : wf h) (i : Nat) : wf (removed_at h i) := by
  obtain ⟨hl, hp, hc⟩ := hwf
  refine ⟨?_, hp, ?_⟩
  · simp only [removed_at]
    split <;> simp [hl]
  · simp only [removed_at]; omega

/-! ## What timer_handler_add_timer computes -/

theorem grow_spec (h g : timer_handler_t) (env : add_env) (hwf : wf h)
    (hg : grow h env = some g) :
    g.timer_count = h.timer_count ∧ g.mutex = h.mutex ∧ g.running = h.running
      ∧ g.epoll_fd = h.epoll_fd ∧ entries g = entries h ∧ wf g
      ∧ g.timer_count < g.timer_capacity := by
  obtain ⟨hl, hpos, hc⟩ := hwf
  unfold grow at hg
  by_cases hfull : h.timer_count ≥ h.timer_capacity
  · rw [if_pos hfull] at hg
    cases hr : env.realloc with
    | none => simp [hr] at hg
    | some junk =>
      simp only [hr, Option.some.injEq] at hg
      subst hg
      refine ⟨rfl, rfl, rfl, rfl, ?_, ⟨?_, ?_, ?_⟩, ?_⟩
      · simp only [entries, List.take_take]
        rw [Nat.min_eq_left (by omega), List.take_append_of_le_length (by omega)]
      · simp only [List.length_take, List.length_append, List.length_replicate]; omega
      · simp only; omega
      · simp only; omega
      · simp only; omega
  · rw [if_neg hfull] at hg
    have hgh : h = g := Option.some.inj hg
    subst hgh
    exact ⟨rfl, rfl, rfl, rfl, rfl, ⟨hl, hpos, hc⟩, by omega⟩

theorem grow_some (h : timer_handler_t) (env : add_env) (hr : env.realloc ≠ none) :
    ∃ g, grow h env = some g := by
  unfold grow
  by_cases hfull : h.timer_count ≥ h.timer_capacity
  · rw [if_pos hfull]
    cases hq : env.realloc with
    | none => exact absurd hq hr
    | some junk => exact ⟨_, rfl⟩
  · rw [if_neg hfull]; exact ⟨h, rfl⟩

theorem wf_lock (h : timer_handler_t) (hwf : wf h) : wf (lock h) := hwf

theorem add_timer_success (h g : timer_handler_t) (cb ud n : Nat) (env : add_env)
    (os : os_state) (hm : h.mutex = false) (hcb : cb ≠ 0)
    (h1 : env.timerfd_create = some n) (h2 : env.fcntl_getfl ≠ none)
    (h3 : env.fcntl_setfl_ok = true) (h4 : env.timerfd_settime_ok = true)
    (h5 : grow (lock h) env = some g) (h6 : env.epoll_ctl_ok = true)
    (h7 : (n : Int) ∉ os.epoll_set) :
    timer_handler_add_timer (some h) cb ud env os
      = some ((n : Int), some (stored g n cb ud),
          ⟨(n : Int) :: os.open_fds, (n : Int) :: os.epoll_set, os.worker⟩) := by
  have hnb : set_nonblock env ≠ -1 := by
    unfold set_nonblock
    cases hf : env.fcntl_getfl with
    | none => exact absurd hf h2
    | some f => simp [h3]
  have hadd : epoll_ctl_add ⟨(n : Int) :: os.open_fds, os.epoll_set, os.worker⟩ (n : Int)
      env.epoll_ctl_ok
        = (0, ⟨(n : Int) :: os.open_fds, (n : Int) :: os.epoll_set, os.worker⟩) := by
    simp [epoll_ctl_add, h6, h7]
  simp only [timer_handler_add_timer, if_neg hcb, hm, h1, if_neg hnb, h4, h5, hadd, stored,
    unlock]
  simp

theorem entries_stored (g : timer_handler_t) (hwf : wf g) (hlt : g.timer_count < g.timer_capacity)
    (tfd : Int) (cb ud : Nat) :
    entries (stored g tfd cb ud) = entries g ++ [⟨tfd, cb, ud⟩] := by
  obtain ⟨hl, _, _⟩ := hwf
  have hlen : g.timer_count < g.timers.length := by omega
  simp only [entries, stored]
  rw [List.take_succ, List.getElem?_set_self hlen, List.set_take,
    List.set_eq_of_length_le (by simp)]
  rfl

theorem wf_stored (g : timer_handler_t) (hwf : wf g) (hlt : g.timer_count < g.timer_capacity)
    (tfd : Int) (cb ud : Nat) : wf (stored g tfd cb ud) := by
  obtain ⟨hl, hp, _⟩ := hwf
  refine ⟨?_, hp, ?_⟩
  · simpa [stored] using hl
  · simp only [stored]; omega

theorem epoll_ctl_add_cases (os : os_state) (fd : Int) (ok : Bool) :
    (epoll_ctl_add os fd ok = (-1, os))
    ∨ (fd ∉ os.epoll_set ∧ fd ∈ os.open_fds
        ∧ epoll_ctl_add os fd ok = (0, ⟨os.open_fds, fd :: os.epoll_set, os.worker⟩)) := by
  unfold epoll_ctl_add
  by_cases hc : ok = true ∧ fd ∈ os.open_fds ∧ fd ∉ os.epoll_set
  · right
    rw [if_pos hc]
    exact ⟨hc.2.2, hc.2.1, rfl⟩
  · left
    rw [if_neg hc]

theorem add_timer_cases (h : timer_handler_t) (cb ud n : Nat) (env : add_env)
    (os : os_state) (hm : h.mutex = false) (hwf : wf h) (hcb : cb ≠ 0)
    (e1 : env.timerfd_create = some n) :
    (∃ h1, timer_handler_add_timer (some h) cb ud env os
          = some (-1, some h1, os_close ⟨(n : Int) :: os.open_fds, os.epoll_set, os.worker⟩ (n : Int))
        ∧ wf h1 ∧ entries h1 = entries h ∧ h1.timer_count = h.timer_count ∧ h1.mutex = true)
    ∨ (∃ g, grow (lock h) env = some g ∧ (n : Int) ∉ os.epoll_set
        ∧ timer_handler_add_timer (some h) cb ud env os
          = some ((n : Int), some (stored g (n : Int) cb ud),
              ⟨(n : Int) :: os.open_fds, (n : Int) :: os.epoll_set, os.worker⟩)) := by
  simp only [timer_handler_add_timer, if_neg hcb, hm, e1, Bool.false_eq_true, if_false]
  by_cases hnb : set_nonblock env = -1
  · left
    simp only [hnb, if_true]
    exact ⟨lock h, rfl, wf_lock h hwf, rfl, rfl, rfl⟩
  · by_cases hst : env.timerfd_settime_ok = false
    · left
      simp only [hnb, hst, if_true, if_false]
      exact ⟨lock h, rfl, wf_lock h hwf, rfl, rfl, rfl⟩
    · cases hg : grow (lock h) env with
      | none =>
        left
        simp only [hnb, hst, if_false]
        exact ⟨lock h, rfl, wf_lock h hwf, rfl, rfl, rfl⟩
      | some g =>
        obtain ⟨gc, gm, _, _, gent, gwf, _⟩ := grow_spec (lock h) g env (wf_lock h hwf) hg
        simp only [hnb, hst, if_false]
        rcases epoll_ctl_add_cases ⟨(n : Int) :: os.open_fds, os.epoll_set, os.worker⟩
          (n : Int) env.epoll_ctl_ok with hfail | ⟨hnot, _, hok⟩
        · left
          simp only [hfail, if_true]
          exact ⟨g, rfl, gwf, gent, gc, gm⟩
        · right
          simp only [hok]
          refine ⟨g, rfl, hnot, ?_⟩
          simp [stored, unlock]

/-! ## The dispatch loop -/

theorem run_once_loop_spec (h : timer_handler_t) (reads : Nat → read_outcome) :
    ∀ (evs : List Int) (i : Nat) (trace : List invocation),
      run_once_loop h reads evs i = some trace →
        trace.length ≤ evs.length ∧
        ∀ inv, inv ∈ trace →
          i ≤ inv.event ∧ evs[inv.event - i]? = some inv.tfd ∧ inv.callback ≠ 0
            ∧ 0 < (reads inv.event).s ∧ inv.expirations = (reads inv.event).expirations := by
  intro evs
  induction evs with
  | nil =>
    intro i trace ht
    simp only [run_once_loop, Option.some.injEq] at ht
    subst ht
    simp
  | cons tfd rest ih =>
    intro i trace ht
    unfold run_once_loop at ht
    by_cases hm : h.mutex = true
    · simp [hm] at ht
    · rw [if_neg hm] at ht
      cases hl : run_once_loop h reads rest (i + 1) with
      | none => simp [hl] at ht
      | some later =>
        obtain ⟨hlen, hall⟩ := ih (i + 1) later hl
        have hlater : ∀ inv, inv ∈ later →
            i ≤ inv.event ∧ (tfd :: rest)[inv.event - i]? = some inv.tfd ∧ inv.callback ≠ 0
              ∧ 0 < (reads inv.event).s
              ∧ inv.expirations = (reads inv.event).expirations := by
          intro inv hin
          obtain ⟨h1, h2, h3, h4, h5⟩ := hall inv hin
          refine ⟨by omega, ?_, h3, h4, h5⟩
          have : inv.event - i = (inv.event - (i + 1)) + 1 := by omega
          rw [this, List.getElem?_cons_succ]
          exact h2
        simp only [hl, Option.some.injEq] at ht
        subst ht
        cases hti : (scan h.timers h.timer_count tfd h.timer_count 0).map
            (fun j => h.timers.getD j default) with
        | none =>
          simp only [List.nil_append]
          exact ⟨by simp; omega, hlater⟩
        | some ti =>
          simp only
          by_cases hcb : ti.callback ≠ 0
          · by_cases hs : (reads i).s > 0
            · simp only [hcb, hs, if_true, ne_eq, not_false_eq_true, List.singleton_append,
                List.length_cons, List.mem_cons]
              refine ⟨by omega, ?_⟩
              intro inv hin
              rcases hin with heq | hin
              · subst heq
                exact ⟨le_refl _, by simp, hcb, hs, rfl⟩
              · exact hlater inv hin
            · simp only [hcb, hs, if_true, if_false, ne_eq, not_false_eq_true, List.nil_append]
              exact ⟨by simp; omega, hlater⟩
          · simp only [hcb, if_false, List.nil_append]
            exact ⟨by simp; omega, hlater⟩

theorem run_once_loop_returns (h : timer_handler_t) (reads : Nat → read_outcome)
    (hm : h.mutex = false) :
    ∀ (evs : List Int) (i : Nat), ∃ trace, run_once_loop h reads evs i = some trace := by
  intro evs
  induction evs with
  | nil => intro i; exact ⟨[], rfl⟩
  | cons tfd rest ih =>
    intro i
    obtain ⟨later, hl⟩ := ih (i + 1)
    unfold run_once_loop
    simp only [hm, Bool.false_eq_true, if_false, hl]
    exact ⟨_, rfl⟩

/-! ## The lockstep invariant -/

theorem inv_create (cenv : create_env) (os0 os1 : os_state) (h0 : timer_handler_t)
    (hc : timer_handler_create cenv os0 = (some h0, os1)) : registry_inv h0 os1 := by
  unfold timer_handler_create at hc
  by_cases h1 : cenv.malloc_handler_ok = false
  · simp [h1] at hc
  · rw [if_neg h1] at hc
    cases h2 : cenv.epoll_create1 with
    | none => simp [h2] at hc
    | some e =>
      cases h3 : cenv.malloc_timers with
      | none => simp [h2, h3] at hc
      | some junk =>
        by_cases h4 : cenv.mutex_init_ok = false
        · simp [h2, h3, h4] at hc
        · have h4t : cenv.mutex_init_ok = true := by simpa using h4
          simp only [h2, h3, h4t, Bool.true_eq_false, if_false, Prod.mk.injEq,
            Option.some.injEq] at hc
          obtain ⟨hh, ho⟩ := hc
          subst hh ho
          refine ⟨⟨by simp, by simp [INITIAL_CAPACITY], by simp⟩, ?_, ?_, ?_⟩
          · simp [handles, entries]
          · intro x; simp [handles, entries]
          · intro x hx; simp at hx

theorem inv_remove (h : timer_handler_t) (os : os_state) (tfd : Int) (ok : Bool)
    (hinv : registry_inv h os) :
    registry_inv (step (h, os) (.remove tfd ok)).1 (step (h, os) (.remove tfd ok)).2 := by
  obtain ⟨hwf, hnd, hlock, hopen⟩ := hinv
  cases hm : h.mutex with
  | true =>
    have : timer_handler_remove_timer (some h) tfd ok os = none := by
      simp [timer_handler_remove_timer, hm]
    simp only [step, this]
    exact ⟨hwf, hnd, hlock, hopen⟩
  | false =>
    by_cases hc : ok = true ∧ tfd ∈ os.epoll_set
    · have hd : epoll_ctl_del os tfd ok
          = (0, ⟨os.open_fds, os.epoll_set.filter (fun x => x ≠ tfd), os.worker⟩) := by
        unfold epoll_ctl_del; rw [if_pos hc]
      have hin : tfd ∈ handles h := (hlock tfd).mpr hc.2
      obtain ⟨j, hj, hjt⟩ := (mem_handles_iff h hwf tfd).mp hin
      cases hs : scan h.timers h.timer_count tfd h.timer_count 0 with
      | none =>
        exact absurd hjt (scan_none_spec h.timers h.timer_count tfd h.timer_count 0
          (by omega) hs j (Nat.zero_le j) hj)
      | some i =>
        obtain ⟨_, hic, hit, _⟩ := scan_some_spec h.timers h.timer_count tfd _ 0 i hs
        have hres := remove_timer_found h tfd ok os i hm (by rw [hd]) hs
        simp only [step, hres]
        have hperm : (handles (removed_at h i)).Perm ((handles h).eraseIdx i) := by
          have := (entries_removed_at_perm h hwf i hic).map timer_info_t.tfd
          simpa [handles, map_eraseIdx] using this
        have hat : (handles h)[i]? = some tfd := by
          rw [handles_get h hwf i hic, hit]
        have hmem : ∀ x, x ∈ handles (removed_at h i) ↔ x ∈ handles h ∧ x ≠ tfd := by
          intro x
          rw [hperm.mem_iff]
          exact mem_eraseIdx_nodup (handles h) i tfd x hnd hat
        refine ⟨wf_removed_at h hwf i, ?_, ?_, ?_⟩
        · exact hperm.nodup_iff.mpr (hnd.sublist (List.eraseIdx_sublist _ _))
        · intro x
          rw [hmem x, hlock x, hd]
          simp [os_close]
        · intro x hx
          rw [hd] at hx
          simp only [os_close, List.mem_filter, decide_eq_true_eq] at hx
          rw [hd]
          simp only [os_close, List.mem_filter, decide_eq_true_eq]
          exact ⟨hopen x hx.1.1, hx.2⟩
    · have hd : epoll_ctl_del os tfd ok = (-1, os) := by
        unfold epoll_ctl_del; rw [if_neg hc]
      have hres := remove_timer_del_fails h tfd ok os hm (by rw [hd])
      simp only [step, hres, hd]
      exact ⟨hwf, hnd, hlock, hopen⟩

theorem inv_add (h : timer_handler_t) (os : os_state) (cb ud : Nat) (env : add_env)
    (hinv : registry_inv h os)
    (hfresh : ∀ n, env.timerfd_create = some n → (n : Int) ∉ os.open_fds) :
    registry_inv (step (h, os) (.add cb ud env)).1 (step (h, os) (.add cb ud env)).2 := by
  obtain ⟨hwf, hnd, hlock, hopen⟩ := hinv
  by_cases hcb : cb = 0
  · have : timer_handler_add_timer (some h) cb ud env os = some (-1, some h, os) := by
      simp [timer_handler_add_timer, hcb]
    simp only [step, this]
    exact ⟨hwf, hnd, hlock, hopen⟩
  cases hm : h.mutex with
  | true =>
    have : timer_handler_add_timer (some h) cb ud env os = none := by
      simp [timer_handler_add_timer, hcb, hm]
    simp only [step, this]
    exact ⟨hwf, hnd, hlock, hopen⟩
  | false =>
    cases e1 : env.timerfd_create with
    | none =>
      have : timer_handler_add_timer (some h) cb ud env os = some (-1, some (lock h), os) := by
        simp [timer_handler_add_timer, hcb, hm, e1]
      simp only [step, this]
      exact ⟨wf_lock h hwf, hnd, hlock, hopen⟩
    | some n =>
      have hn : (n : Int) ∉ os.open_fds := hfresh n e1
      have hne : (n : Int) ∉ os.epoll_set := fun hc => hn (hopen _ hc)
      rcases add_timer_cases h cb ud n env os hm hwf hcb e1 with
        ⟨h1, hres, hwf1, hent, _, _⟩ | ⟨g, hg, _, hres⟩
      · simp only [step, hres]
        have hh : handles h1 = handles h := by simp [handles, hent]
        refine ⟨hwf1, hh ▸ hnd, ?_, ?_⟩
        · intro x
          rw [hh, hlock x]
          simp only [os_close, List.mem_filter, decide_eq_true_eq]
          constructor
          · intro hx
            exact ⟨hx, fun hc => hne (hc ▸ hx)⟩
          · exact fun hx => hx.1
        · intro x hx
          simp only [os_close, List.mem_filter, decide_eq_true_eq] at hx
          simp only [os_close, List.mem_filter, decide_eq_true_eq, List.mem_cons]
          exact ⟨Or.inr (hopen x hx.1), hx.2⟩
      · obtain ⟨_, _, _, _, gent, gwf, glt⟩ := grow_spec (lock h) g env (wf_lock h hwf) hg
        have gent2 : entries g = entries h := gent
        simp only [step, hres]
        have hh : handles (stored g (n : Int) cb ud) = handles h ++ [(n : Int)] := by
          simp [handles, entries_stored g gwf glt, gent2]
        have hnh : (n : Int) ∉ handles h := fun hc => hne ((hlock _).mp hc)
        refine ⟨wf_stored g gwf glt _ cb ud, ?_, ?_, ?_⟩
        · rw [hh]
          exact List.nodup_append.mpr ⟨hnd, List.nodup_singleton _, by
            intro a ha hb
            rw [List.mem_singleton] at hb
            exact hnh (hb ▸ ha)⟩
        · intro x
          rw [hh, List.mem_append, List.mem_singleton, hlock x, List.mem_cons]
          exact Or.comm
        · intro x hx
          rcases List.mem_cons.mp hx with hx | hx
          · exact List.mem_cons.mpr (Or.inl hx)
          · exact List.mem_cons.mpr (Or.inr (hopen x hx))

theorem inv_run_calls :
    ∀ (calls : List api_call) (h : timer_handler_t) (os : os_state),
      registry_inv h os → fresh_descriptors (h, os) calls = true →
        registry_inv (run_calls (h, os) calls).1 (run_calls (h, os) calls).2 := by
  intro calls
  induction calls with
  | nil => intro h os hinv _; exact hinv
  | cons c cs ih =>
    intro h os hinv hf
    simp only [fresh_descriptors, Bool.and_eq_true] at hf
    obtain ⟨hnow, hrest⟩ := hf
    simp only [run_calls]
    have hstep : registry_inv (step (h, os) c).1 (step (h, os) c).2 := by
      cases c with
      | add cb ud env =>
        apply inv_add h os cb ud env hinv
        intro n hn
        simp only [hn, decide_eq_true_eq] at hnow
        exact hnow
      | remove tfd ok => exact inv_remove h os tfd ok hinv
    exact ih (step (h, os) c).1 (step (h, os) c).2 hstep hrest

/-! # The claims -/

/-- Claim C1: when `tfd` is in the registry and the `EPOLL_CTL_DEL` succeeds,
`timer_handler_remove_timer` returns 0 and `timer_count` drops by one.  With
`i` the first index that carried `tfd`, the new live entries are a permutation
of the old ones without entry `i`; every position other than `i` is unchanged
and position `i`, when it is still live, holds the former last entry.  The
descriptor is closed and unregistered, and the mutex is free again. -/
theorem remove_timer_swap_removes (h : timer_handler_t) (tfd : Int) (ctl_ok : Bool)
    (os : os_state) (hm : h.mutex = false) (hwf : wf h) (hin : tfd ∈ handles h)
    (hdel : (epoll_ctl_del os tfd ctl_ok).1 = 0) :
    ∃ i h1 os1,
      timer_handler_remove_timer (some h) tfd ctl_ok os = some (0, some h1, os1)
      ∧ i < h.timer_count
      ∧ (handles h)[i]? = some tfd
      ∧ (∀ j, j < i → (handles h)[j]? ≠ some tfd)
      ∧ h1.timer_count + 1 = h.timer_count
      ∧ (entries h1).length = h1.timer_count
      ∧ (entries h1).Perm ((entries h).eraseIdx i)
      ∧ (∀ j, j < h1.timer_count → j ≠ i → (entries h1)[j]? = (entries h)[j]?)
      ∧ (i < h1.timer_count → (entries h1)[i]? = (entries h)[h.timer_count - 1]?)
      ∧ tfd ∉ os1.open_fds ∧ tfd ∉ os1.epoll_set ∧ h1.mutex = false := by
  have hlen := entries_length h hwf
  cases hs : scan h.timers h.timer_count tfd h.timer_count 0 with
  | none =>
    exfalso
    obtain ⟨j, hj, hjt⟩ := (mem_handles_iff h hwf tfd).mp hin
    exact scan_none_spec h.timers h.timer_count tfd h.timer_count 0 (by omega) hs j
      (Nat.zero_le j) hj hjt
  | some i =>
    obtain ⟨_, hic, hit, hfirst⟩ := scan_some_spec h.timers h.timer_count tfd _ 0 i hs
    have hent := entries_removed_at h hwf i
    have hlast : (entries h).getLast? = some ((entries h).getD (h.timer_count - 1) default) := by
      rw [List.getLast?_eq_getElem?, hlen, List.getD_eq_getElem?_getD,
        entries_get h hwf (h.timer_count - 1) (by omega)]
      rfl
    refine ⟨i, removed_at h i, os_close (epoll_ctl_del os tfd ctl_ok).2 tfd,
      remove_timer_found h tfd ctl_ok os i hm hdel hs, hic, ?_, ?_, ?_, ?_, ?_, ?_, ?_, ?_, ?_, ?_⟩
    · rw [handles_get h hwf i hic, hit]
    · intro j hj
      rw [handles_get h hwf j (by omega)]
      intro hc
      exact hfirst j (Nat.zero_le j) hj (Option.some.inj hc)
    · simp only [removed_at]; omega
    · rw [hent]
      by_cases hlt : i < h.timer_count - 1
      · simp [hlt, hlen, removed_at]
      · simp [hlt, hlen, removed_at]
    · exact entries_removed_at_perm h hwf i hic
    · intro j hj hji
      have hj1 : j < h.timer_count - 1 := by simpa [removed_at] using hj
      rw [hent]
      by_cases hlt : i < h.timer_count - 1
      · rw [if_pos hlt, List.getElem?_set_ne (Ne.symm hji), List.getElem?_dropLast, hlen,
          if_pos hj1]
      · rw [if_neg hlt, List.getElem?_dropLast, hlen, if_pos hj1]
    · intro hi1
      have hlt : i < h.timer_count - 1 := by simpa [removed_at] using hi1
      rw [hent, if_pos hlt, List.getElem?_set_self (by simp [hlen]; omega), hlast.symm,
        List.getLast?_eq_getElem?, hlen]
    · simp [os_close]
    · simp [os_close]
    · simp [removed_at, hm]

/-- Removing timer 4 from the registry 4, 5, 6: the call returns 0 and the
registry becomes 6, 5. -/
theorem remove_timer_swap_removes_witness :
    three_timers.mutex = false ∧ wf three_timers ∧ (4 : Int) ∈ handles three_timers
    ∧ (epoll_ctl_del three_os 4 true).1 = 0
    ∧ (∃ i h1 os1,
        timer_handler_remove_timer (some three_timers) 4 true three_os
          = some (0, some h1, os1)
        ∧ i < three_timers.timer_count
        ∧ (handles three_timers)[i]? = some 4
        ∧ (∀ j, j < i → (handles three_timers)[j]? ≠ some 4)
        ∧ h1.timer_count + 1 = three_timers.timer_count
        ∧ (entries h1).length = h1.timer_count
        ∧ (entries h1).Perm ((entries three_timers).eraseIdx i)
        ∧ (∀ j, j < h1.timer_count → j ≠ i → (entries h1)[j]? = (entries three_timers)[j]?)
        ∧ (i < h1.timer_count →
            (entries h1)[i]? = (entries three_timers)[three_timers.timer_count - 1]?)
        ∧ (4 : Int) ∉ os1.open_fds ∧ (4 : Int) ∉ os1.epoll_set ∧ h1.mutex = false)
    ∧ (timer_handler_remove_timer (some three_timers) 4 true three_os).map
        (fun r => (r.1, r.2.1.map handles))
        = some (0, some [6, 5]) :=
  ⟨rfl, by decide, by decide, by decide,
    remove_timer_swap_removes three_timers 4 true three_os rfl (by decide) (by decide)
      (by decide),
    by decide⟩

/-- Claim C2: when `tfd` is not in the registry, `timer_handler_remove_timer`
returns -1 and the handler object is exactly what it was (same `timer_count`,
same entries), whether the `EPOLL_CTL_DEL` fails or succeeds; the kernel state
is the one the `EPOLL_CTL_DEL` left. -/
theorem remove_timer_absent (h : timer_handler_t) (tfd : Int) (ctl_ok : Bool)
    (os : os_state) (hm : h.mutex = false) (hwf : wf h) (hout : tfd ∉ handles h) :
    timer_handler_remove_timer (some h) tfd ctl_ok os
      = some (-1, some h, (epoll_ctl_del os tfd ctl_ok).2) := by
  apply remove_timer_missing h tfd ctl_ok os hm
  cases hs : scan h.timers h.timer_count tfd h.timer_count 0 with
  | none => rfl
  | some i =>
    exfalso
    obtain ⟨_, hic, hit, _⟩ := scan_some_spec h.timers h.timer_count tfd _ 0 i hs
    exact hout ((mem_handles_iff h hwf tfd).mpr ⟨i, hic, hit⟩)

/-- Removing 9 from the registry 4, 5, 6: once with the kernel refusing the
unregistration (9 is not registered), once with the kernel accepting it (9 is
registered although the registry does not hold it). -/
theorem remove_timer_absent_witness :
    three_timers.mutex = false ∧ wf three_timers ∧ (9 : Int) ∉ handles three_timers
    ∧ (epoll_ctl_del three_os 9 true).1 = -1
    ∧ timer_handler_remove_timer (some three_timers) 9 true three_os
        = some (-1, some three_timers, (epoll_ctl_del three_os 9 true).2)
    ∧ (epoll_ctl_del stray_os 9 true).1 = 0
    ∧ timer_handler_remove_timer (some three_timers) 9 true stray_os
        = some (-1, some three_timers, (epoll_ctl_del stray_os 9 true).2) :=
  ⟨rfl, by decide, by decide, by decide,
    remove_timer_absent three_timers 9 true three_os rfl (by decide) (by decide),
    by decide,
    remove_timer_absent three_timers 9 true stray_os rfl (by decide) (by decide)⟩

/-- Claim C3: on a well-formed handler whose mutex is free, when every kernel
call of the add succeeds, the descriptor `n` handed out is not yet in the
registry (nor registered with epoll, so that the registration succeeds) and the
kernel accepts the unregistration, `timer_handler_add_timer` with a non-null
callback returns `n`, and `timer_handler_remove_timer` on `n` then returns 0 and
leaves `timer_count`, the live entries and the epoll interest list as they were
before the add. -/
theorem add_then_remove_restores (h : timer_handler_t) (cb ud n : Nat) (env : add_env)
    (os : os_state) (hm : h.mutex = false) (hwf : wf h) (hcb : cb ≠ 0)
    (e1 : env.timerfd_create = some n) (e2 : env.fcntl_getfl ≠ none)
    (e3 : env.fcntl_setfl_ok = true) (e4 : env.timerfd_settime_ok = true)
    (e5 : env.realloc ≠ none) (e6 : env.epoll_ctl_ok = true)
    (hnew : (n : Int) ∉ handles h) (hreg : (n : Int) ∉ os.epoll_set) :
    ∃ h1 os1 h2 os2,
      timer_handler_add_timer (some h) cb ud env os = some ((n : Int), some h1, os1)
      ∧ h1.timer_count = h.timer_count + 1
      ∧ timer_handler_remove_timer (some h1) (n : Int) true os1 = some (0, some h2, os2)
      ∧ h2.timer_count = h.timer_count
      ∧ entries h2 = entries h
      ∧ os2.epoll_set = os.epoll_set := by
  obtain ⟨g, hg⟩ := grow_some (lock h) env e5
  obtain ⟨gc, _, _, _, gent, gwf, glt⟩ := grow_spec (lock h) g env (wf_lock h hwf) hg
  have gc2 : g.timer_count = h.timer_count := gc
  have gent2 : entries g = entries h := gent
  have hadd := add_timer_success h g cb ud n env os hm hcb e1 e2 e3 e4 hg e6 hreg
  have swf := wf_stored g gwf glt (n : Int) cb ud
  have sent := entries_stored g gwf glt (n : Int) cb ud
  have scount : (stored g (n : Int) cb ud).timer_count = h.timer_count + 1 := by
    simp [stored, gc2]
  have hlen : (entries h).length = h.timer_count := entries_length h hwf
  have shandles : handles (stored g (n : Int) cb ud) = handles h ++ [(n : Int)] := by
    simp [handles, sent, gent2]
  have hlenh : (handles h).length = h.timer_count := by simp [handles, hlen]
  have hscan : scan (stored g (n : Int) cb ud).timers (stored g (n : Int) cb ud).timer_count
      (n : Int) (stored g (n : Int) cb ud).timer_count 0 = some h.timer_count := by
    apply scan_first _ swf
    · omega
    · rw [shandles, List.getElem?_append_right (by omega), hlenh]; simp
    · intro j hj hc
      rw [shandles, List.getElem?_append_left (by omega)] at hc
      exact hnew (List.mem_iff_getElem?.mpr ⟨j, hc⟩)
  have hdel : (epoll_ctl_del ⟨(n : Int) :: os.open_fds, (n : Int) :: os.epoll_set, os.worker⟩
      (n : Int) true).1 = 0 := by
    simp [epoll_ctl_del]
  have hrem := remove_timer_found (stored g (n : Int) cb ud) (n : Int) true _ h.timer_count
    (by simp [stored]) hdel hscan
  refine ⟨_, _, _, _, hadd, scount, hrem, ?_, ?_, ?_⟩
  · simp [removed_at, scount]
  · rw [entries_removed_at _ swf _, scount, if_neg (by omega), sent, gent2]
    simp
  · simp only [os_close, epoll_ctl_del]
    simp
    intro a ha hc
    exact hreg (hc ▸ ha)

/-- Adding timer 7 to a full registry (the block has to grow) and removing it
at once. -/
theorem add_then_remove_restores_witness :
    full_handler.mutex = false ∧ wf full_handler ∧ (5 : Nat) ≠ 0
    ∧ (env_ok 7).timerfd_create = some 7 ∧ (env_ok 7).fcntl_getfl ≠ none
    ∧ (env_ok 7).fcntl_setfl_ok = true ∧ (env_ok 7).timerfd_settime_ok = true
    ∧ (env_ok 7).realloc ≠ none ∧ (env_ok 7).epoll_ctl_ok = true
    ∧ ((7 : Nat) : Int) ∉ handles full_handler ∧ ((7 : Nat) : Int) ∉ full_os.epoll_set
    ∧ ∃ h1 os1 h2 os2,
        timer_handler_add_timer (some full_handler) 5 0 (env_ok 7) full_os
          = some (((7 : Nat) : Int), some h1, os1)
        ∧ h1.timer_count = full_handler.timer_count + 1
        ∧ timer_handler_remove_timer (some h1) ((7 : Nat) : Int) true os1
            = some (0, some h2, os2)
        ∧ h2.timer_count = full_handler.timer_count
        ∧ entries h2 = entries full_handler
        ∧ os2.epoll_set = full_os.epoll_set :=
  ⟨rfl, by decide, by decide, rfl, by decide, rfl, rfl, by decide, rfl, by decide, by decide,
    add_then_remove_restores full_handler 5 0 7 (env_ok 7) full_os rfl (by decide)
      (by decide) rfl (by decide) rfl rfl (by decide) rfl (by decide) (by decide)⟩

/-- Claim C4: a `timer_handler_add_timer` that returns -1 after `timerfd_create`
handed out descriptor `n` (so `set_nonblock`, `timerfd_settime`, `realloc` or
`epoll_ctl` failed) has closed `n`: the open descriptors are the ones open
before the call, `n` not among them.  The handler keeps its `timer_count` and
its live entries.  With a NULL handler or a NULL callback the call returns -1
and neither the handler nor the kernel state changes. -/
theorem add_timer_failure_unwinds (h : timer_handler_t) (cb ud : Nat) (env : add_env)
    (os : os_state) (hwf : wf h) :
    timer_handler_add_timer none cb ud env os = some (-1, none, os)
    ∧ timer_handler_add_timer (some h) 0 ud env os = some (-1, some h, os)
    ∧ ∀ (n : Nat) (r : Int) (res : Option timer_handler_t) (os1 : os_state),
        cb ≠ 0 → env.timerfd_create = some n →
        timer_handler_add_timer (some h) cb ud env os = some (r, res, os1) → r = -1 →
          os1.open_fds = os.open_fds.filter (fun x => x ≠ (n : Int))
          ∧ (n : Int) ∉ os1.open_fds
          ∧ ∃ h1, res = some h1 ∧ h1.timer_count = h.timer_count
              ∧ entries h1 = entries h := by
  refine ⟨rfl, by simp [timer_handler_add_timer], ?_⟩
  intro n r res os1 hcb e1 hrun hr
  have hmf : h.mutex = false := by
    cases hmx : h.mutex with
    | false => rfl
    | true => simp [timer_handler_add_timer, hcb, hmx] at hrun
  rcases add_timer_cases h cb ud n env os hmf hwf hcb e1 with
    ⟨h1, hres, _, hent, hcnt, _⟩ | ⟨g, _, _, hres⟩
  · rw [hres] at hrun
    simp only [Option.some.injEq, Prod.mk.injEq] at hrun
    obtain ⟨_, h2, h3⟩ := hrun
    subst h2 h3
    refine ⟨by simp [os_close], by simp [os_close], h1, rfl, hcnt, hent⟩
  · rw [hres] at hrun
    simp only [Option.some.injEq, Prod.mk.injEq] at hrun
    omega

/-- An add on the registry 4, 5, 6 that gets descriptor 7 and then fails in
`epoll_ctl`: descriptor 7 is closed again and the registry is still 4, 5, 6. -/
theorem add_timer_failure_unwinds_witness :
    wf three_timers
    ∧ timer_handler_add_timer (some three_timers) 5 0 (env_no_epoll 7) three_os
        = some (-1, some (lock three_timers), three_os)
    ∧ three_os.open_fds = three_os.open_fds.filter (fun x => x ≠ ((7 : Nat) : Int))
    ∧ ((7 : Nat) : Int) ∉ three_os.open_fds
    ∧ ∃ h1, some (lock three_timers) = some h1
        ∧ h1.timer_count = three_timers.timer_count
        ∧ entries h1 = entries three_timers :=
  ⟨by decide, by decide,
    (add_timer_failure_unwinds three_timers 5 0 (env_no_epoll 7) three_os (by decide)).2.2
      7 (-1) (some (lock three_timers)) three_os (by decide) rfl (by decide) rfl⟩

/-- The mutex after `timer_handler_add_timer`: on every path behind the
`pthread_mutex_lock` the call returns, and the mutex is still held exactly when
the call returns -1. -/
theorem add_timer_mutex_held_iff_failure (h : timer_handler_t) (cb ud : Nat) (env : add_env)
    (os : os_state) (hm : h.mutex = false) (hwf : wf h) (hcb : cb ≠ 0) :
    ∃ r h1 os1, timer_handler_add_timer (some h) cb ud env os = some (r, some h1, os1)
      ∧ (h1.mutex = true ↔ r = -1) := by
  cases e1 : env.timerfd_create with
  | none =>
    refine ⟨-1, lock h, os, ?_, ?_⟩
    · simp [timer_handler_add_timer, hcb, hm, e1]
    · simp [lock]
  | some n =>
    rcases add_timer_cases h cb ud n env os hm hwf hcb e1 with
      ⟨h1, hres, _, _, _, hmx⟩ | ⟨g, _, _, hres⟩
    · exact ⟨_, _, _, hres, by simp [hmx]⟩
    · refine ⟨_, _, _, hres, ?_⟩
      simp only [stored, Bool.false_eq_true, false_iff]
      omega

/-- Claim C5, at the failing input: on the handler that `timer_handler_create`
returns (mutex free), a `timer_handler_add_timer` whose `timerfd_create` fails
returns -1 with the mutex still held; the next `timer_handler_remove_timer`
and the next `timer_handler_add_timer` wait for the mutex for ever. -/
theorem add_timer_failure_keeps_mutex :
    sample_handler.mutex = false
    ∧ timer_handler_add_timer (some sample_handler) 7 0 env_no_timerfd sample_os
        = some (-1, some { sample_handler with mutex := true }, sample_os)
    ∧ timer_handler_remove_timer (some { sample_handler with mutex := true }) 4 true sample_os
        = none
    ∧ timer_handler_add_timer (some { sample_handler with mutex := true }) 7 0 (env_ok 4)
        sample_os = none := by
  refine ⟨rfl, ?_, ?_, ?_⟩ <;> rfl

/-- Claim C6: starting from the handler that `timer_handler_create` returns,
after every sequence of `timer_handler_add_timer` and
`timer_handler_remove_timer` calls, whatever each of them returns, in which
`timerfd_create` only hands out descriptors that are not open, a handle is in
the live registry entries if and only if it is in the epoll interest list. -/
theorem registry_epoll_lockstep (cenv : create_env) (os0 os1 : os_state)
    (h0 : timer_handler_t) (calls : List api_call)
    (hc : timer_handler_create cenv os0 = (some h0, os1))
    (hf : fresh_descriptors (h0, os1) calls = true) :
    ∀ x, x ∈ handles (run_calls (h0, os1) calls).1
      ↔ x ∈ (run_calls (h0, os1) calls).2.epoll_set :=
  (inv_run_calls calls h0 os1 (inv_create cenv os0 os1 h0 hc) hf).2.2.1

/-- Six calls after a create: two adds, a remove, a remove of an unknown handle,
an add that reuses descriptor 4, and an add that fails in `epoll_ctl`.  The
registry and the interest list both hold 5 and 4. -/
theorem registry_epoll_lockstep_witness :
    timer_handler_create create_env_ok boot_os = (some sample_handler, sample_os)
    ∧ fresh_descriptors (sample_handler, sample_os)
        [.add 7 10 (env_ok 4), .add 8 11 (env_ok 5), .remove 4 true, .remove 9 true,
          .add 9 12 (env_ok 4), .add 7 0 (env_no_epoll 6)] = true
    ∧ (∀ x, x ∈ handles (run_calls (sample_handler, sample_os)
          [.add 7 10 (env_ok 4), .add 8 11 (env_ok 5), .remove 4 true, .remove 9 true,
            .add 9 12 (env_ok 4), .add 7 0 (env_no_epoll 6)]).1
        ↔ x ∈ (run_calls (sample_handler, sample_os)
          [.add 7 10 (env_ok 4), .add 8 11 (env_ok 5), .remove 4 true, .remove 9 true,
            .add 9 12 (env_ok 4), .add 7 0 (env_no_epoll 6)]).2.epoll_set)
    ∧ handles (run_calls (sample_handler, sample_os)
          [.add 7 10 (env_ok 4), .add 8 11 (env_ok 5), .remove 4 true, .remove 9 true,
            .add 9 12 (env_ok 4), .add 7 0 (env_no_epoll 6)]).1 = [5, 4]
    ∧ (run_calls (sample_handler, sample_os)
          [.add 7 10 (env_ok 4), .add 8 11 (env_ok 5), .remove 4 true, .remove 9 true,
            .add 9 12 (env_ok 4), .add 7 0 (env_no_epoll 6)]).2.epoll_set = [4, 5] :=
  ⟨by decide, by decide,
    registry_epoll_lockstep create_env_ok boot_os sample_os sample_handler _ (by decide)
      (by decide),
    by decide, by decide⟩

/-- Claim C7: on a handler whose mutex is free, `timer_handler_start` with the
running flag set returns -1 and changes nothing (flag still set, no worker
created); `timer_handler_stop` with the flag clear returns -1 and changes
nothing; with the flag set and a worker that is inside its loop,
`timer_handler_stop` returns 0 with the flag clear and no worker left; and after
any `timer_handler_stop` that returned 0, `timer_handler_is_running` returns
0. -/
theorem lifecycle_misuse (h : timer_handler_t) (os : os_state) (create_ok : Bool)
    (hm : h.mutex = false) :
    (h.running ≠ 0 → timer_handler_start (some h) create_ok os = some (-1, some h, os))
    ∧ (h.running = 0 → timer_handler_stop (some h) os = some (-1, some h, os))
    ∧ (h.running ≠ 0 → os.worker = .looping →
        timer_handler_stop (some h) os
          = some (0, some { h with running := 0 }, { os with worker := .absent }))
    ∧ (∀ r h1 os1, timer_handler_stop (some h) os = some (r, some h1, os1) → r = 0 →
        h1.running = 0 ∧ timer_handler_is_running (some h1) = some 0) := by
  cases h with
  | mk e ts c cap run m =>
  simp only at hm
  subst hm
  refine ⟨?_, ?_, ?_, ?_⟩
  · intro hr
    simp only at hr
    simp [timer_handler_start, lock, unlock, hr]
  · intro hr
    simp only at hr
    simp [timer_handler_stop, lock, unlock, hr]
  · intro hr hw
    simp only at hr
    cases os with
    | mk fds eps wk =>
      simp only at hw
      subst hw
      simp [timer_handler_stop, lock, unlock, hr, pthread_join]
  · intro r h1 os1 hstop hr0
    subst hr0
    by_cases hr : run = 0
    · simp [timer_handler_stop, lock, unlock, hr] at hstop
    · simp only [timer_handler_stop, lock, unlock, hr, Bool.false_eq_true, if_false] at hstop
      cases hj : pthread_join ⟨e, ts, c, cap, 0, false⟩ os with
      | none => simp [hj] at hstop
      | some os2 =>
        simp only [hj, Option.some.injEq, Prod.mk.injEq, true_and] at hstop
        obtain ⟨h2, _⟩ := hstop
        subst h2
        exact ⟨rfl, rfl⟩

/-- A running handler with its worker in the loop: a second start fails, a stop
succeeds, and after it `timer_handler_is_running` returns 0 and a second stop
fails. -/
theorem lifecycle_misuse_witness :
    running_handler.mutex = false
    ∧ timer_handler_start (some running_handler) true running_os
        = some (-1, some running_handler, running_os)
    ∧ timer_handler_stop (some running_handler) running_os
        = some (0, some sample_handler, sample_os)
    ∧ timer_handler_is_running (some sample_handler) = some 0
    ∧ timer_handler_stop (some sample_handler) sample_os
        = some (-1, some sample_handler, sample_os) :=
  ⟨rfl,
    (lifecycle_misuse running_handler running_os true rfl).1 (by decide),
    (lifecycle_misuse running_handler running_os true rfl).2.2.1 (by decide) rfl,
    ((lifecycle_misuse running_handler running_os true rfl).2.2.2 0 sample_handler sample_os
      (by decide) rfl).2,
    (lifecycle_misuse sample_handler sample_os true rfl).2.1 rfl⟩

/-- Claim C8: `timer_handler_run_once` on a handler whose mutex is free returns,
and every callback it invoked belongs to a readiness notification whose `read`
returned more than zero bytes, and got the count that this `read` stored.  So a
notification whose `read` returns 0 or fails (it would block) invokes no
callback; and since a timerfd `read` that returns data reports at least one
expiration (`timerfd_read_contract`), a notification whose count is zero invokes
no callback and no callback is invoked with `expirations = 0`. -/
theorem run_once_skips_empty_reads (h : timer_handler_t) (o : wait_result)
    (reads : Nat → read_outcome) (hm : h.mutex = false) :
    ∃ ret trace, timer_handler_run_once (some h) o reads = some (ret, trace)
      ∧ (∀ inv, inv ∈ trace → 0 < (reads inv.event).s
          ∧ inv.expirations = (reads inv.event).expirations
          ∧ ∀ evs, epoll_wait h.timer_count o = .ready evs → evs[inv.event]? = some inv.tfd)
      ∧ (∀ i, (reads i).s ≤ 0 → ∀ inv, inv ∈ trace → inv.event ≠ i)
      ∧ (timerfd_read_contract reads →
          (∀ i, (reads i).expirations = 0 → ∀ inv, inv ∈ trace → inv.event ≠ i)
          ∧ ∀ inv, inv ∈ trace → inv.expirations ≠ 0) := by
  have hex : ∃ ret trace, timer_handler_run_once (some h) o reads = some (ret, trace)
      ∧ ∀ inv, inv ∈ trace → 0 < (reads inv.event).s
          ∧ inv.expirations = (reads inv.event).expirations
          ∧ ∀ evs, epoll_wait h.timer_count o = .ready evs
              → evs[inv.event]? = some inv.tfd := by
    cases hw : epoll_wait h.timer_count o with
    | error e =>
      refine ⟨-1, [], by simp [timer_handler_run_once, hw], ?_⟩
      intro inv hin
      simp at hin
    | ready events =>
      obtain ⟨tr, hl⟩ := run_once_loop_returns h reads hm events 0
      refine ⟨(events.length : Int), tr, by simp [timer_handler_run_once, hw, hl], ?_⟩
      intro inv hin
      obtain ⟨_, hall⟩ := run_once_loop_spec h reads events 0 tr hl
      obtain ⟨_, h2, _, h4, h5⟩ := hall inv hin
      refine ⟨h4, h5, ?_⟩
      intro evs hevs
      cases hevs
      simpa using h2
  obtain ⟨ret, trace, hrun, base⟩ := hex
  refine ⟨ret, trace, hrun, base, ?_, ?_⟩
  · intro i hi inv hin hev
    have h1 := (base inv hin).1
    rw [hev] at h1
    omega
  · intro hc
    refine ⟨?_, ?_⟩
    · intro i hi inv hin hev
      have h1 := (base inv hin).1
      have h2 := hc inv.event h1
      rw [hev] at h2
      omega
    · intro inv hin
      obtain ⟨h1, h2, _⟩ := base inv hin
      have h3 := hc inv.event h1
      omega

/-- Three notifications (timers 5 and 4, and the unknown descriptor 9) on the
registry 4, 5, 6; only the first `read` returns data.  One callback runs, with
3 expirations. -/
theorem run_once_skips_empty_reads_witness :
    three_timers.mutex = false
    ∧ timerfd_read_contract sample_reads
    ∧ timer_handler_run_once (some three_timers) (.ready [5, 4, 9]) sample_reads
        = some (3, [⟨0, 8, 5, 3, 11⟩])
    ∧ ∃ ret trace,
        timer_handler_run_once (some three_timers) (.ready [5, 4, 9]) sample_reads
          = some (ret, trace)
        ∧ (∀ inv, inv ∈ trace → 0 < (sample_reads inv.event).s
            ∧ inv.expirations = (sample_reads inv.event).expirations
            ∧ ∀ evs, epoll_wait three_timers.timer_count (.ready [5, 4, 9]) = .ready evs
                → evs[inv.event]? = some inv.tfd)
        ∧ (∀ i, (sample_reads i).s ≤ 0 → ∀ inv, inv ∈ trace → inv.event ≠ i)
        ∧ (timerfd_read_contract sample_reads →
            (∀ i, (sample_reads i).expirations = 0 → ∀ inv, inv ∈ trace → inv.event ≠ i)
            ∧ ∀ inv, inv ∈ trace → inv.expirations ≠ 0) :=
  ⟨rfl,
    by
      intro i hi
      unfold sample_reads at hi ⊢
      by_cases h0 : i = 0
      · simp [h0]
      · simp [h0] at hi,
    by decide,
    run_once_skips_empty_reads three_timers (.ready [5, 4, 9]) sample_reads rfl⟩

/-- Claim C9 as stated fails: when `epoll_wait` is cut short by a signal (it
returns -1 with `errno = EINTR`), `timer_handler_run_once` returns -1. -/
theorem run_once_eintr_returns_error :
    epoll_wait three_timers.timer_count (.error EINTR) = .error EINTR
    ∧ timer_handler_run_once (some three_timers) (.error EINTR) sample_reads
        = some (-1, []) :=
  ⟨rfl, rfl⟩

/-- Claim C9, amended: on a non-null handler `timer_handler_run_once` returns -1
if and only if `epoll_wait` fails, whatever the `errno` (EINTR included). -/
theorem run_once_error_iff_wait_fails (h : timer_handler_t) (o : wait_result)
    (reads : Nat → read_outcome) :
    (∃ trace, timer_handler_run_once (some h) o reads = some (-1, trace))
      ↔ ∃ e, epoll_wait h.timer_count o = .error e := by
  cases hw : epoll_wait h.timer_count o with
  | error e =>
    simp only [timer_handler_run_once, hw]
    exact ⟨fun _ => ⟨e, rfl⟩, fun _ => ⟨[], rfl⟩⟩
  | ready events =>
    simp only [timer_handler_run_once, hw]
    constructor
    · rintro ⟨trace, ht⟩
      exfalso
      cases hl : run_once_loop h reads events 0 with
      | none => simp [hl] at ht
      | some tr =>
        simp only [hl, Option.some.injEq, Prod.mk.injEq] at ht
        omega
    · rintro ⟨e, he⟩
      cases he

/-- Claim C10: when `epoll_wait` succeeds with the events `evs`, on a handler
whose mutex is free, `timer_handler_run_once` returns the number of events,
whatever the registry holds and whatever the reads return; the callbacks
invoked are at most that many. -/
theorem run_once_returns_notification_count (h : timer_handler_t) (o : wait_result)
    (reads : Nat → read_outcome) (evs : List Int) (hm : h.mutex = false)
    (hw : epoll_wait h.timer_count o = .ready evs) :
    ∃ trace, timer_handler_run_once (some h) o reads = some ((evs.length : Int), trace)
      ∧ trace.length ≤ evs.length := by
  obtain ⟨trace, ht⟩ := run_once_loop_returns h reads hm evs 0
  refine ⟨trace, ?_, (run_once_loop_spec h reads evs 0 trace ht).1⟩
  simp [timer_handler_run_once, hw, ht]

/-- Two notifications on the registry 4, 5, 6, for the unknown descriptor 9 and
for timer 4 whose `read` would block: no callback runs and the call returns
2. -/
theorem run_once_returns_notification_count_witness :
    three_timers.mutex = false
    ∧ epoll_wait three_timers.timer_count (.ready [9, 4]) = .ready [9, 4]
    ∧ timer_handler_run_once (some three_timers) (.ready [9, 4]) (fun _ => ⟨-1, 0⟩)
        = some (2, [])
    ∧ ∃ trace,
        timer_handler_run_once (some three_timers) (.ready [9, 4]) (fun _ => ⟨-1, 0⟩)
          = some ((([9, 4] : List Int).length : Int), trace)
        ∧ trace.length ≤ ([9, 4] : List Int).length :=
  ⟨rfl, by decide, by decide,
    run_once_returns_notification_count three_timers (.ready [9, 4]) (fun _ => ⟨-1, 0⟩)
      [9, 4] rfl (by decide)⟩

end TimerHandler
